import Mathlib

/-!
Shallow embedding of the `irpc` package (`irpc.go`): an in-process RPC
registry mapping string routing keys to handlers, with a reflection-based
contract binder.

Modelling conventions:
* Go `any` values are `GoVal A`: the nil interface, a non-error payload
  `val a`, or a value of a type implementing `error` carrying its message
  (`errv msg`).  Go `error` variables are `Option String` (nil or message).
* Go panics are modelled by the `Outcome` type (for `Call`, handler
  invocation and `ValidateImpl`) and by `OpResult` (for registration, which
  must also expose the registry state left behind by an aborted call).
* The handler map `map[string]HandlerFunc` is an association list; insertion
  conses in front and lookup takes the first match, which matches Go map
  insert/overwrite semantics.  A stored handler is never the nil function.
* `reflect.Type.Method` enumerates an interface's methods sorted in
  lexicographic order of their names (Go reflect documentation), so the
  contract enumeration sorts the declared names.
* `reflect.Value.Call` panics are modelled: wrong argument count
  (too few / too many) and invalid (zero `reflect.Value`) arguments, which
  arise from `reflect.ValueOf` applied to a nil interface value.
-/

namespace Irpc

/-- A Go `any` value: the nil interface, an ordinary (non-error) value, or a
value of some type implementing `error`, identified by its message string. -/
inductive GoVal (A : Type) : Type where
  | nil : GoVal A
  | val (a : A) : GoVal A
  | errv (msg : String) : GoVal A
deriving DecidableEq

/-- A Go `error` variable: nil, or an error carrying its message. -/
abbrev GoErr := Option String

/-- Result of running a piece of Go code that may panic. -/
inductive Outcome (α : Type) : Type where
  | ok (a : α) : Outcome α
  | panic (msg : String) : Outcome α
deriving DecidableEq

/-- Go `reflect.Value.IsNil`-style test, restricted to the cases the wrapper
uses (the nil interface is nil; other modelled values are not). -/
def GoVal.isNilB {A : Type} : GoVal A → Bool
  | .nil => true
  | _ => false

/-- True when a value may legally sit in an error-typed result slot: the nil
interface or an error value. -/
def GoVal.isErrOrNil {A : Type} : GoVal A → Bool
  | .val _ => false
  | _ => true

/-- A bound method as seen through reflection: its declared number of
(non-receiver) parameters, and its behaviour, mapping the context and the
optional request argument to the list of result values. -/
structure GoMethod (Ctx A : Type) : Type where
  numIn : Nat
  body : Ctx → Option (GoVal A) → List (GoVal A)

/-- Registry configuration. -/
structure Config : Type where
  AllowOverride : Bool
  AllowPartial : Bool
deriving DecidableEq

/-- The documented default configuration. -/
def DEFAULT_CONFIG : Config := ⟨false, false⟩

/-- HandlerFunc: `func(context.Context, any) (any, error)`.  The context is an
interface value and may be nil; invocation may panic. -/
abbrev HandlerFunc (Ctx A : Type) := Option Ctx → GoVal A → Outcome (GoVal A × GoErr)

/-- The registry: the key-to-handler map plus its configuration. -/
structure Registry (Ctx A : Type) : Type where
  handlers : List (String × HandlerFunc Ctx A)
  config : Config

/-- NewRegistry: empty map, given configuration. -/
def NewRegistry (Ctx A : Type) (config : Config) : Registry Ctx A :=
  ⟨[], config⟩

/-- Go map lookup on the association list (first match wins; insertions cons
in front, so the most recent insertion is found). -/
def findH {Ctx A : Type} : List (String × HandlerFunc Ctx A) → String → Option (HandlerFunc Ctx A)
  | [], _ => none
  | (k, h) :: rest, key => if key = k then some h else findH rest key

/-- The map read `r.handlers[key]`. -/
def Registry.find {Ctx A : Type} (r : Registry Ctx A) (key : String) : Option (HandlerFunc Ctx A) :=
  findH r.handlers key

/-- Message of the `Call` lookup failure (`fmt.Errorf`, line 175). -/
def handlerNotFoundMsg (key : String) : String :=
  "irpc: handler not found: " ++ key

/-- Message of the missing-method panic in `RegisterContract` (line 127). -/
def missingMethodMsg (serviceName mName : String) : String :=
  "irpc: missing method: " ++ serviceName ++ "." ++ mName

/-- Message of the duplicate-key panic in `RegisterContract` (line 132). -/
def duplicateKeyMsg (key : String) : String :=
  "irpc: duplicate method key \x27" ++ key ++ "\x27 in RegisterContract"

/-- Message of the `ValidateImpl` panic (line 193). -/
def missingHandlerMsg (key : String) : String :=
  "irpc: missing registered handler for " ++ key

/-- Message of the non-pointer-implementation panic (line 115). -/
def implNotPointerMsg : String :=
  "irpc: impl must be a pointer to struct"

/-- Panic message of `reflect.Value.Call` with fewer arguments than declared. -/
def reflectTooFewMsg : String :=
  "reflect: Call with too few input arguments"

/-- Panic message of `reflect.Value.Call` with more arguments than declared. -/
def reflectTooManyMsg : String :=
  "reflect: Call with too many input arguments"

/-- Panic message of `reflect.Value.Call` on an invalid (zero) argument, as
produced by `reflect.ValueOf` on a nil interface. -/
def reflectZeroValueMsg : String :=
  "reflect: Call using zero Value argument"

/-- The type assertion `out[1].Interface().(error)` (line 153): succeeds on an
error value, panics otherwise. -/
def asGoError {A : Type} : GoVal A → Outcome GoErr
  | .errv m => .ok (some m)
  | .nil => .panic "interface conversion: interface is nil, not error"
  | .val _ => .panic "interface conversion: value does not implement error"

/-- Lines 151-159 of `makeHandler`: interpret the slice of reflected results.
`err` is set only when exactly two results are returned and the second is
non-nil; the first result, when present, is returned as the response. -/
def outsToResult {A : Type} : List (GoVal A) → Outcome (GoVal A × GoErr)
  | [] => .ok (.nil, none)
  | [o0] => .ok (o0, none)
  | [o0, o1] =>
    if o1.isNilB then .ok (o0, none)
    else
      match asGoError o1 with
      | .ok e => .ok (o0, e)
      | .panic m => .panic m
  | o0 :: _ :: _ :: _ => .ok (o0, none)

/-- `makeHandler` (lines 141-161): builds the argument slice (context, plus
the request only when the method declares two parameters), performs the
reflective call (with its panics on arity mismatch and on invalid arguments),
then interprets the results. -/
def makeHandler {Ctx A : Type} (method : GoMethod Ctx A) : HandlerFunc Ctx A :=
  fun ctx req =>
    let argc : Nat := if method.numIn == 2 then 2 else 1
    if argc < method.numIn then .panic reflectTooFewMsg
    else if method.numIn < argc then .panic reflectTooManyMsg
    else
      match ctx with
      | none => .panic reflectZeroValueMsg
      | some c =>
        if method.numIn == 2 && req.isNilB then .panic reflectZeroValueMsg
        else outsToResult (method.body c (if method.numIn == 2 then some req else none))

/-- `Register` (lines 163-167): unconditional insert-or-overwrite. -/
def Registry.Register {Ctx A : Type} (r : Registry Ctx A) (key : String)
    (h : HandlerFunc Ctx A) : Registry Ctx A :=
  { r with handlers := (key, h) :: r.handlers }

/-- `Call` (lines 169-179): look the key up; absent keys yield a
handler-not-found error value (no panic); otherwise the handler runs. -/
def Registry.Call {Ctx A : Type} (r : Registry Ctx A) (ctx : Option Ctx) (key : String)
    (req : GoVal A) : Outcome (GoVal A × GoErr) :=
  match r.find key with
  | none => .ok (.nil, some (handlerNotFoundMsg key))
  | some h => h ctx req

/-- A contract: the interface's declared method names, in declaration order. -/
structure Contract : Type where
  methods : List String

/-- An implementation value as seen by reflection: whether it is a pointer,
and its method set (`reflect.Value.MethodByName`). -/
structure Impl (Ctx A : Type) : Type where
  isPointer : Bool
  methodByName : String → Option (GoMethod Ctx A)

/-- Lexicographic order on character lists, as a boolean function; this is the
comparison Go uses on (ASCII) method name strings. -/
def charListLe : List Char → List Char → Bool
  | [], _ => true
  | _ :: _, [] => false
  | a :: as, b :: bs =>
    if a.toNat < b.toNat then true
    else if b.toNat < a.toNat then false
    else charListLe as bs

/-- Lexicographic order on strings. -/
def goStrLe (a b : String) : Bool := charListLe a.data b.data

/-- The string order as a proposition, for use with `List.insertionSort`. -/
def goStrLeP (a b : String) : Prop := goStrLe a b = true

instance : DecidableRel goStrLeP :=
  fun a b => inferInstanceAs (Decidable (goStrLe a b = true))

instance : IsTotal String goStrLeP where
  total := by
    have h : ∀ a b : List Char, charListLe a b = true ∨ charListLe b a = true := by
      intro a
      induction a with
      | nil => intro b; left; rfl
      | cons x as ih =>
        intro b
        cases b with
        | nil => right; rfl
        | cons y bs =>
          by_cases hxy : x.toNat < y.toNat
          · left; simp [charListLe, hxy]
          · by_cases hyx : y.toNat < x.toNat
            · right; simp [charListLe, hyx]
            · rcases ih bs with h1 | h1
              · left; simp [charListLe, hxy, hyx, h1]
              · right; simp [charListLe, hxy, hyx, h1]
    intro a b
    exact h a.data b.data

instance : IsTrans String goStrLeP where
  trans := by
    have h : ∀ a b c : List Char, charListLe a b = true → charListLe b c = true →
        charListLe a c = true := by
      intro a
      induction a with
      | nil => intro b c _ _; rfl
      | cons x as ih =>
        intro b c hab hbc
        cases b with
        | nil => simp [charListLe] at hab
        | cons y bs =>
          cases c with
          | nil => simp [charListLe] at hbc
          | cons z cs =>
            simp only [charListLe] at hab hbc ⊢
            by_cases h1 : x.toNat < y.toNat
            · by_cases h2 : y.toNat < z.toNat
              · have hxz : x.toNat < z.toNat := Nat.lt_trans h1 h2
                simp [hxz]
              · by_cases h3 : z.toNat < y.toNat
                · simp [h2, h3] at hbc
                · have hxz : x.toNat < z.toNat := by omega
                  simp [hxz]
            · by_cases h1' : y.toNat < x.toNat
              · simp [h1, h1'] at hab
              · by_cases h2 : y.toNat < z.toNat
                · have hxz : x.toNat < z.toNat := by omega
                  simp [hxz]
                · by_cases h3 : z.toNat < y.toNat
                  · simp [h2, h3] at hbc
                  · have hxz : ¬ x.toNat < z.toNat := by omega
                    have hzx : ¬ z.toNat < x.toNat := by omega
                    simp only [h1, h1', if_false] at hab
                    simp only [h2, h3, if_false] at hbc
                    simp [hxz, hzx, ih bs cs hab hbc]
    intro a b c hab hbc
    exact h a.data b.data c.data hab hbc

/-- The enumeration order of `ifaceType.Method(i)`: Go reflect returns an
interface's methods sorted in lexicographic order of their names. -/
def ifaceMethodNames (iface : Contract) : List String :=
  iface.methods.insertionSort goStrLeP

/-- Result of a registration call: the final registry, with the panic message
when the call aborted (the map keeps the insertions made before the abort). -/
inductive OpResult (Ctx A : Type) : Type where
  | ok (r : Registry Ctx A) : OpResult Ctx A
  | panicked (msg : String) (r : Registry Ctx A) : OpResult Ctx A

/-- The registry state after a registration call, aborted or not. -/
def OpResult.reg {Ctx A : Type} : OpResult Ctx A → Registry Ctx A
  | .ok r => r
  | .panicked _ r => r

/-- The loop body of `RegisterContract` (lines 118-138) over a list of
operation names: resolve the method (skip or panic when missing, per
`AllowPartial`), panic on a duplicate key under strict override policy,
otherwise bind and register. -/
def registerOps {Ctx A : Type} (serviceName : String) (impl : Impl Ctx A) :
    Registry Ctx A → List String → OpResult Ctx A
  | r, [] => .ok r
  | r, mName :: rest =>
    match impl.methodByName mName with
    | none =>
      if r.config.AllowPartial then registerOps serviceName impl r rest
      else .panicked (missingMethodMsg serviceName mName) r
    | some mth =>
      let key := serviceName ++ "." ++ mName
      if (r.find key).isSome && !r.config.AllowOverride then
        .panicked (duplicateKeyMsg key) r
      else
        registerOps serviceName impl (r.Register key (makeHandler mth)) rest

/-- `RegisterContract` (lines 109-139): reject non-pointer implementations,
then process the contract's method names in reflect's enumeration order. -/
def RegisterContract {Ctx A : Type} (r : Registry Ctx A) (serviceName : String)
    (iface : Contract) (impl : Impl Ctx A) : OpResult Ctx A :=
  if impl.isPointer then registerOps serviceName impl r (ifaceMethodNames iface)
  else .panicked implNotPointerMsg r

/-- The loop of `ValidateImpl` (lines 184-195) over a list of operation
names: panic at the first name whose key has no registered handler. -/
def validateOps {Ctx A : Type} (r : Registry Ctx A) (serviceName : String) :
    List String → Outcome Unit
  | [] => .ok ()
  | mName :: rest =>
    let key := serviceName ++ "." ++ mName
    if (r.find key).isSome then validateOps r serviceName rest
    else .panic (missingHandlerMsg key)

/-- `ValidateImpl` (lines 181-196). -/
def ValidateImpl {Ctx A : Type} (r : Registry Ctx A) (serviceName : String)
    (iface : Contract) : Outcome Unit :=
  validateOps r serviceName (ifaceMethodNames iface)

/-- A registration-surface operation, for reasoning about sequences of calls. -/
inductive RegOp (Ctx A : Type) : Type where
  | reg (key : String) (h : HandlerFunc Ctx A) : RegOp Ctx A
  | regContract (serviceName : String) (iface : Contract) (impl : Impl Ctx A) : RegOp Ctx A

/-- Apply one registration operation. -/
def applyOp {Ctx A : Type} (r : Registry Ctx A) : RegOp Ctx A → OpResult Ctx A
  | .reg key h => .ok (r.Register key h)
  | .regContract s iface impl => RegisterContract r s iface impl

/-- Run a sequence of registration operations; a panic is fatal and aborts
the rest of the sequence, leaving the state reached at the abort. -/
def runOps {Ctx A : Type} : Registry Ctx A → List (RegOp Ctx A) → Registry Ctx A
  | r, [] => r
  | r, op :: rest =>
    match applyOp r op with
    | .ok r' => runOps r' rest
    | .panicked _ r' => r'

/-- The operation mentions (attempts to register) the given key: directly for
`Register`, or via some declared contract operation for `RegisterContract`. -/
def RegOp.registersKey {Ctx A : Type} : RegOp Ctx A → String → Prop
  | .reg k _, key => k = key
  | .regContract s iface _, key => ∃ m ∈ iface.methods, s ++ "." ++ m = key

/-! ### Sample values used by concrete witnesses and counterexamples -/

/-- A sample handler that reports the error message "first". -/
def hFirst : HandlerFunc Unit Nat := fun _ _ => .ok (.nil, some "first")

/-- A sample handler that reports the error message "second". -/
def hSecond : HandlerFunc Unit Nat := fun _ _ => .ok (.nil, some "second")

/-- A handler forging the text of the core's handler-not-found error. -/
def hForge : HandlerFunc Unit Nat := fun _ _ => .ok (.nil, some (handlerNotFoundMsg "Exam.Missing"))

/-- A context-only method whose single result is a non-nil error value. -/
def mOneErr : GoMethod Unit Nat := ⟨1, fun _ _ => [GoVal.errv "boom"]⟩

/-- A two-parameter method returning a non-nil response and a non-nil error. -/
def mBoth : GoMethod Unit Nat := ⟨2, fun _ _ => [GoVal.val 7, GoVal.errv "boom"]⟩

/-- A two-parameter method returning a non-nil response and a nil error. -/
def mOk : GoMethod Unit Nat := ⟨2, fun _ _ => [GoVal.val 7, GoVal.nil]⟩

/-- A context-only method returning a response and a nil error. -/
def mCtxOnly : GoMethod Unit Nat := ⟨1, fun _ _ => [GoVal.val 5, GoVal.nil]⟩

/-- A method declaring three parameters: its shape does not fit the
capability signature. -/
def mThreeIn : GoMethod Unit Nat := ⟨3, fun _ _ => [GoVal.val 1, GoVal.nil]⟩

/-- A pointer implementation exposing every method name, bound to `mCtxOnly`. -/
def implFull : Impl Unit Nat := ⟨true, fun _ => some mCtxOnly⟩

/-- A pointer implementation exposing only the method "A". -/
def implOnlyA : Impl Unit Nat :=
  ⟨true, fun n => if n = "A" then some mCtxOnly else none⟩

/-- A pointer implementation exposing only the ill-shaped method "M". -/
def implBadShape : Impl Unit Nat :=
  ⟨true, fun n => if n = "M" then some mThreeIn else none⟩

/-- The result slice of a well-typed capability method: when there are exactly
two results, the second one is of an error type (nil or an error value). -/
def errorSlotOkB {A : Type} : List (GoVal A) → Bool
  | [_, o1] => o1.isErrOrNil
  | _ => true

/-! ### Basic registry lemmas -/

@[simp]
theorem isNilB_nil {A : Type} : (GoVal.nil : GoVal A).isNilB = true := rfl

@[simp]
theorem isNilB_val {A : Type} (a : A) : (GoVal.val a).isNilB = false := rfl

@[simp]
theorem isNilB_errv {A : Type} (e : String) : (GoVal.errv e : GoVal A).isNilB = false := rfl

@[simp]
theorem isErrOrNil_nil {A : Type} : (GoVal.nil : GoVal A).isErrOrNil = true := rfl

@[simp]
theorem isErrOrNil_val {A : Type} (a : A) : (GoVal.val a).isErrOrNil = false := rfl

@[simp]
theorem isErrOrNil_errv {A : Type} (e : String) : (GoVal.errv e : GoVal A).isErrOrNil = true := rfl

@[simp]
theorem asGoError_errv {A : Type} (e : String) :
    asGoError (GoVal.errv e : GoVal A) = .ok (some e) := rfl

@[simp]
theorem find_Register {Ctx A : Type} (r : Registry Ctx A) (k key : String)
    (h : HandlerFunc Ctx A) :
    (r.Register k h).find key = if key = k then some h else r.find key := rfl

@[simp]
theorem config_Register {Ctx A : Type} (r : Registry Ctx A) (k : String)
    (h : HandlerFunc Ctx A) :
    (r.Register k h).config = r.config := rfl

@[simp]
theorem find_NewRegistry {Ctx A : Type} (cfg : Config) (key : String) :
    (NewRegistry Ctx A cfg).find key = none := rfl

theorem registerOps_config {Ctx A : Type} (s : String) (impl : Impl Ctx A) :
    ∀ (ops : List String) (r : Registry Ctx A),
      ((registerOps s impl r ops).reg).config = r.config
  | [], _ => rfl
  | m :: rest, r => by
    simp only [registerOps]
    cases hm : impl.methodByName m with
    | none =>
      cases hp : r.config.AllowPartial with
      | false => simp [OpResult.reg]
      | true => simpa using registerOps_config s impl rest r
    | some mth =>
      cases hdup : (r.find (s ++ "." ++ m)).isSome && !r.config.AllowOverride with
      | true => simp [OpResult.reg]
      | false => simpa using registerOps_config s impl rest (r.Register (s ++ "." ++ m) (makeHandler mth))

/-- A routing key determines the operation name (given the service name). -/
theorem routingKey_inj {s m m' : String} (h : s ++ "." ++ m = s ++ "." ++ m') : m = m' := by
  have hd := congrArg String.data h
  simp only [String.data_append, List.append_assoc] at hd
  exact String.ext (List.append_cancel_left (List.append_cancel_left hd))

/-- The loop of `RegisterContract` never touches a key formed from an
operation name it does not process. -/
theorem registerOps_find_of_not_mentioned {Ctx A : Type} (s : String) (impl : Impl Ctx A)
    (key : String) :
    ∀ (ops : List String) (r : Registry Ctx A), (∀ m ∈ ops, s ++ "." ++ m ≠ key) →
      ((registerOps s impl r ops).reg).find key = r.find key
  | [], _, _ => rfl
  | m :: rest, r, hni => by
    have hni' : ∀ x ∈ rest, s ++ "." ++ x ≠ key :=
      fun x hx => hni x (List.mem_cons_of_mem _ hx)
    simp only [registerOps]
    cases hm : impl.methodByName m with
    | none =>
      cases hp : r.config.AllowPartial with
      | false => simp [OpResult.reg]
      | true => simpa using registerOps_find_of_not_mentioned s impl key rest r hni'
    | some mth =>
      cases hdup : (r.find (s ++ "." ++ m)).isSome && !r.config.AllowOverride with
      | true => simp [OpResult.reg]
      | false =>
        simp only [Bool.false_eq_true, if_false]
        rw [registerOps_find_of_not_mentioned s impl key rest _ hni']
        rw [find_Register, if_neg (fun hk => hni m (List.mem_cons_self ..) hk.symm)]

/-- Under strict override policy, a key already mapped keeps its handler
across the whole loop of `RegisterContract`, aborted or not. -/
theorem registerOps_find_of_present {Ctx A : Type} (s : String) (impl : Impl Ctx A)
    (key : String) (h₀ : HandlerFunc Ctx A) :
    ∀ (ops : List String) (r : Registry Ctx A), r.config.AllowOverride = false →
      r.find key = some h₀ → ((registerOps s impl r ops).reg).find key = some h₀
  | [], _, _, hf => hf
  | m :: rest, r, hov, hf => by
    simp only [registerOps]
    cases hm : impl.methodByName m with
    | none =>
      cases hp : r.config.AllowPartial with
      | false => simpa [OpResult.reg] using hf
      | true => simpa using registerOps_find_of_present s impl key h₀ rest r hov hf
    | some mth =>
      cases hdup : (r.find (s ++ "." ++ m)).isSome && !r.config.AllowOverride with
      | true => simpa [OpResult.reg] using hf
      | false =>
        have hnone : r.find (s ++ "." ++ m) = none := by
          rw [hov] at hdup
          simp only [Bool.not_false, Bool.and_true] at hdup
          exact Option.not_isSome_iff_eq_none.mp (by simp [hdup])
        have hne : key ≠ s ++ "." ++ m := by
          intro hk
          rw [hk, hnone] at hf
          cases hf
        simp only [Bool.false_eq_true, if_false]
        exact registerOps_find_of_present s impl key h₀ rest _
          (by simpa using hov) (by rw [find_Register, if_neg hne]; exact hf)

/-- Under strict override policy, a contract operation whose key is already
mapped makes the whole loop abort with a panic. -/
theorem registerOps_panicked_of_dup {Ctx A : Type} (s : String) (impl : Impl Ctx A) :
    ∀ (ops : List String) (r : Registry Ctx A) (m : String), r.config.AllowOverride = false →
      m ∈ ops → (impl.methodByName m).isSome → ((r.find (s ++ "." ++ m)).isSome) →
      ∃ msg r', registerOps s impl r ops = .panicked msg r'
  | [], _, m, _, hmem, _, _ => absurd hmem (List.not_mem_nil m)
  | x :: rest, r, m, hov, hmem, hmth, hdup => by
    simp only [registerOps]
    cases hx : impl.methodByName x with
    | none =>
      cases hp : r.config.AllowPartial with
      | false => exact ⟨_, _, rfl⟩
      | true =>
        have hm' : m ∈ rest := by
          rcases List.mem_cons.mp hmem with rfl | h
          · rw [hx] at hmth; cases hmth
          · exact h
        simpa using registerOps_panicked_of_dup s impl rest r m hov hm' hmth hdup
    | some mth =>
      cases hd : (r.find (s ++ "." ++ x)).isSome && !r.config.AllowOverride with
      | true => exact ⟨_, _, rfl⟩
      | false =>
        have hxm : x ≠ m := by
          intro hk
          rw [hov] at hd
          simp only [Bool.not_false, Bool.and_true] at hd
          rw [hk] at hd
          rw [hd] at hdup
          cases hdup
        have hm' : m ∈ rest := by
          rcases List.mem_cons.mp hmem with rfl | h
          · exact absurd rfl hxm
          · exact h
        have hdup' : ((r.Register (s ++ "." ++ x) (makeHandler mth)).find (s ++ "." ++ m)).isSome := by
          rw [find_Register]
          by_cases hk : s ++ "." ++ m = s ++ "." ++ x
          · simp [hk]
          · rw [if_neg hk]; exact hdup
        simp only [Bool.false_eq_true, if_false]
        exact registerOps_panicked_of_dup s impl rest _ m (by simpa using hov) hm' hmth hdup'

/-- Keys not mentioned by any operation of a registration sequence stay
unmapped across the whole sequence, aborted or not. -/
theorem runOps_find_none {Ctx A : Type} (key : String) :
    ∀ (ops : List (RegOp Ctx A)) (r : Registry Ctx A),
      (∀ op ∈ ops, ¬ op.registersKey key) → r.find key = none →
      (runOps r ops).find key = none
  | [], _, _, hf => hf
  | op :: rest, r, hno, hf => by
    have hop := hno op (List.mem_cons_self ..)
    have hrest : ∀ o ∈ rest, ¬ o.registersKey key :=
      fun o ho => hno o (List.mem_cons_of_mem _ ho)
    simp only [runOps]
    cases op with
    | reg k h =>
      simp only [applyOp]
      apply runOps_find_none key rest
      · exact hrest
      · rw [find_Register, if_neg (fun hk => hop hk.symm)]
        exact hf
    | regContract s iface impl =>
      simp only [applyOp, RegisterContract]
      have hnm : ∀ m ∈ ifaceMethodNames iface, s ++ "." ++ m ≠ key := by
        intro m hm hk
        exact hop ⟨m, (List.perm_insertionSort goStrLeP iface.methods).mem_iff.mp hm, hk⟩
      cases hpt : impl.isPointer with
      | false =>
        simp only [Bool.false_eq_true, if_false]
        exact hf
      | true =>
        simp only [if_true]
        have hframe := registerOps_find_of_not_mentioned s impl key (ifaceMethodNames iface) r hnm
        cases hres : registerOps s impl r (ifaceMethodNames iface) with
        | ok r' =>
          rw [hres] at hframe
          exact runOps_find_none key rest r' hrest (by simpa [OpResult.reg, hf] using hframe)
        | panicked msg r' =>
          rw [hres] at hframe
          simpa [OpResult.reg, hf] using hframe

/-- C1: a key never registered by any `Register` or `RegisterContract` call of
the whole registration history resolves, for every context and request value,
to a nil response and the `HandlerNotFound` error naming the key; `Call`
returns normally (no panic). -/
theorem C1_call_unregistered {Ctx A : Type} (cfg : Config) (ops : List (RegOp Ctx A))
    (key : String) (hnever : ∀ op ∈ ops, ¬ op.registersKey key)
    (ctx : Option Ctx) (req : GoVal A) :
    (runOps (NewRegistry Ctx A cfg) ops).Call ctx key req
      = .ok (.nil, some (handlerNotFoundMsg key)) := by
  have h := runOps_find_none key ops (NewRegistry Ctx A cfg) hnever rfl
  simp [Registry.Call, h]

/-- Witness for C1 at a concrete history: one direct registration and one
contract registration, neither touching the key "Exam.Missing". -/
theorem C1_call_unregistered_witness :
    (∀ op ∈ ([.reg "Exam.FindExamById" hFirst,
              .regContract "Exam" ⟨["FindAllExams"]⟩ implFull] : List (RegOp Unit Nat)),
        ¬ op.registersKey "Exam.Missing") ∧
    (runOps (NewRegistry Unit Nat DEFAULT_CONFIG)
        [.reg "Exam.FindExamById" hFirst,
         .regContract "Exam" ⟨["FindAllExams"]⟩ implFull]).Call none "Exam.Missing" (GoVal.val 3)
      = .ok (.nil, some (handlerNotFoundMsg "Exam.Missing")) := by
  have hnever : ∀ op ∈ ([.reg "Exam.FindExamById" hFirst,
      .regContract "Exam" ⟨["FindAllExams"]⟩ implFull] : List (RegOp Unit Nat)),
      ¬ op.registersKey "Exam.Missing" := by
    intro op hop
    rcases List.mem_cons.mp hop with rfl | hop'
    · simp only [RegOp.registersKey]
      decide
    · rcases List.mem_cons.mp hop' with rfl | hop''
      · simp only [RegOp.registersKey]
        decide
      · exact absurd hop'' (List.not_mem_nil _)
  exact ⟨hnever, C1_call_unregistered DEFAULT_CONFIG _ "Exam.Missing" hnever none (GoVal.val 3)⟩

/-- C2 counterexample: a bound method returning a non-nil first result next to
a non-nil error makes `Call` return that non-nil response together with the
error, so the response is not nil/empty as the claim requires. -/
theorem C2_counterexample :
    ((NewRegistry Unit Nat DEFAULT_CONFIG).Register "S.M" (makeHandler mBoth)).Call
        (some ()) "S.M" (GoVal.val 1)
      = .ok (GoVal.val 7, some "boom") ∧
    (GoVal.val 7 : GoVal Nat) ≠ GoVal.nil := by
  exact ⟨rfl, by decide⟩

/-- C2 (amended): `Call` passes a two-result method's outputs through exactly:
the first result is the response (whatever it is, nil or not) and the second
result is the error slot, unchanged and unwrapped; in particular a non-nil
response with a nil error comes back exactly as the method returned it. -/
theorem C2_pass_through {Ctx A : Type} (r : Registry Ctx A) (key : String)
    (m : GoMethod Ctx A) (c : Ctx) (req : GoVal A)
    (hfind : r.find key = some (makeHandler m))
    (hn : m.numIn = 2) (hreq : req.isNilB = false) :
    (∀ (o0 : GoVal A) (e : String), m.body c (some req) = [o0, .errv e] →
        r.Call (some c) key req = .ok (o0, some e)) ∧
    (∀ o0 : GoVal A, m.body c (some req) = [o0, .nil] →
        r.Call (some c) key req = .ok (o0, none)) := by
  constructor
  · intro o0 e hbody
    simp [Registry.Call, hfind, makeHandler, hn, hreq, hbody, outsToResult]
  · intro o0 hbody
    simp [Registry.Call, hfind, makeHandler, hn, hreq, hbody, outsToResult]

/-- Witness for C2 (amended) at a concrete registry and methods: the error
pass-through case and the success pass-through case. -/
theorem C2_pass_through_witness :
    (((NewRegistry Unit Nat DEFAULT_CONFIG).Register "S.M" (makeHandler mBoth)).find "S.M"
        = some (makeHandler mBoth)) ∧
    mBoth.numIn = 2 ∧ (GoVal.val 1 : GoVal Nat).isNilB = false ∧
    ((NewRegistry Unit Nat DEFAULT_CONFIG).Register "S.M" (makeHandler mBoth)).Call
        (some ()) "S.M" (GoVal.val 1) = .ok (GoVal.val 7, some "boom") := by
  exact ⟨rfl, rfl, rfl,
    (C2_pass_through ((NewRegistry Unit Nat DEFAULT_CONFIG).Register "S.M" (makeHandler mBoth))
      "S.M" mBoth () (GoVal.val 1) rfl rfl rfl).1 (GoVal.val 7) "boom" rfl⟩

/-- C4 counterexample: for a method returning exactly one value (here a
non-nil error value), `Call` returns that value in the response slot with a
nil error, not a nil response with that value as the error, contradicting the
claim's one-return interpretation. -/
theorem C4_counterexample :
    ((NewRegistry Unit Nat DEFAULT_CONFIG).Register "S.M" (makeHandler mOneErr)).Call
        (some ()) "S.M" (GoVal.val 1)
      = .ok (GoVal.errv "boom", none) ∧
    (Outcome.ok ((GoVal.errv "boom" : GoVal Nat), (none : GoErr)))
      ≠ .ok (GoVal.nil, some "boom") := by
  exact ⟨rfl, by decide⟩

/-- C4 (amended): the bound handler interprets results positionally: with two
results the second is the error slot (nil error means success, an error value
is propagated); with exactly one result that value is returned as the
response together with a nil error (the single result is never treated as the
error). -/
theorem C4_positional {Ctx A : Type} (r : Registry Ctx A) (key : String)
    (m : GoMethod Ctx A) (c : Ctx) (req : GoVal A)
    (hfind : r.find key = some (makeHandler m))
    (hargs : m.numIn = 1 ∨ (m.numIn = 2 ∧ req.isNilB = false)) :
    (∀ o0 o1 : GoVal A, m.body c (if m.numIn == 2 then some req else none) = [o0, o1] →
        (o1 = .nil → r.Call (some c) key req = .ok (o0, none)) ∧
        (∀ e, o1 = .errv e → r.Call (some c) key req = .ok (o0, some e))) ∧
    (∀ o0 : GoVal A, m.body c (if m.numIn == 2 then some req else none) = [o0] →
        r.Call (some c) key req = .ok (o0, none)) := by
  rcases hargs with h1 | ⟨h2, hreq⟩
  · constructor
    · intro o0 o1 hbody
      rw [h1] at hbody
      simp only [Nat.reduceBEq, Bool.false_eq_true, if_false] at hbody
      constructor
      · rintro rfl
        simp [Registry.Call, hfind, makeHandler, h1, hbody, outsToResult]
      · rintro e rfl
        simp [Registry.Call, hfind, makeHandler, h1, hbody, outsToResult]
    · intro o0 hbody
      rw [h1] at hbody
      simp only [Nat.reduceBEq, Bool.false_eq_true, if_false] at hbody
      simp [Registry.Call, hfind, makeHandler, h1, hbody, outsToResult]
  · constructor
    · intro o0 o1 hbody
      rw [h2] at hbody
      simp only [Nat.reduceBEq, if_true] at hbody
      constructor
      · rintro rfl
        simp [Registry.Call, hfind, makeHandler, h2, hreq, hbody, outsToResult]
      · rintro e rfl
        simp [Registry.Call, hfind, makeHandler, h2, hreq, hbody, outsToResult]
    · intro o0 hbody
      rw [h2] at hbody
      simp only [Nat.reduceBEq, if_true] at hbody
      simp [Registry.Call, hfind, makeHandler, h2, hreq, hbody, outsToResult]

/-- Witness for C4 (amended): a context-only single-result method returning an
error value; the value comes back in the response slot with a nil error. -/
theorem C4_positional_witness :
    (((NewRegistry Unit Nat DEFAULT_CONFIG).Register "S.M" (makeHandler mOneErr)).find "S.M"
        = some (makeHandler mOneErr)) ∧
    (mOneErr.numIn = 1 ∨ (mOneErr.numIn = 2 ∧ (GoVal.val 1 : GoVal Nat).isNilB = false)) ∧
    ((NewRegistry Unit Nat DEFAULT_CONFIG).Register "S.M" (makeHandler mOneErr)).Call
        (some ()) "S.M" (GoVal.val 1) = .ok (GoVal.errv "boom", none) := by
  exact ⟨rfl, Or.inl rfl,
    (C4_positional ((NewRegistry Unit Nat DEFAULT_CONFIG).Register "S.M" (makeHandler mOneErr))
      "S.M" mOneErr () (GoVal.val 1) rfl (Or.inl rfl)).2 (GoVal.errv "boom") rfl⟩

/-- C10: a handler bound to a two-parameter method panics inside handler
invocation when `Call` is given a nil request (the zero `reflect.Value`),
while a handler bound to a context-only method with a well-typed error slot
returns normally on a nil request. -/
theorem C10_nil_request {Ctx A : Type} (r : Registry Ctx A) (key : String)
    (m : GoMethod Ctx A) (c : Ctx) (hfind : r.find key = some (makeHandler m)) :
    (m.numIn = 2 → r.Call (some c) key .nil = .panic reflectZeroValueMsg) ∧
    (m.numIn = 1 → errorSlotOkB (m.body c none) = true →
        ∃ res, r.Call (some c) key .nil = .ok res) := by
  constructor
  · intro h2
    simp [Registry.Call, hfind, makeHandler, h2]
  · intro h1 hslot
    have hcall : r.Call (some c) key .nil = outsToResult (m.body c none) := by
      simp [Registry.Call, hfind, makeHandler, h1]
    rw [hcall]
    rcases hb : m.body c none with _ | ⟨o0, _ | ⟨o1, _ | ⟨o2, rest⟩⟩⟩
    · exact ⟨_, rfl⟩
    · exact ⟨_, rfl⟩
    · rw [hb] at hslot
      cases o1 with
      | nil => exact ⟨_, rfl⟩
      | val a => simp [errorSlotOkB] at hslot
      | errv e => exact ⟨(o0, some e), rfl⟩
    · exact ⟨_, rfl⟩

/-- Witness for C10: nil request against a two-parameter method panics; the
same nil request against a context-only method succeeds. -/
theorem C10_nil_request_witness :
    (((NewRegistry Unit Nat DEFAULT_CONFIG).Register "S.M" (makeHandler mOk)).find "S.M"
        = some (makeHandler mOk)) ∧
    mOk.numIn = 2 ∧
    ((NewRegistry Unit Nat DEFAULT_CONFIG).Register "S.M" (makeHandler mOk)).Call
        (some ()) "S.M" .nil = .panic reflectZeroValueMsg := by
  exact ⟨rfl, rfl,
    (C10_nil_request ((NewRegistry Unit Nat DEFAULT_CONFIG).Register "S.M" (makeHandler mOk))
      "S.M" mOk () rfl).1 rfl⟩

/-- C3 counterexample: with the strict default configuration
(AllowOverride=false), a sequence of two `Register` calls on the same key is
not fatal, and the second registration takes effect: the subsequent `Call`
runs the second handler's behaviour, which differs from the first's. -/
theorem C3_counterexample :
    DEFAULT_CONFIG.AllowOverride = false ∧
    (runOps (NewRegistry Unit Nat DEFAULT_CONFIG)
        [.reg "k" hFirst, .reg "k" hSecond]).Call none "k" (GoVal.val 0)
      = .ok (.nil, some "second") ∧
    hFirst none (GoVal.val 0) = .ok (.nil, some "first") ∧
    (Outcome.ok ((GoVal.nil : GoVal Nat), some "second"))
      ≠ .ok ((GoVal.nil : GoVal Nat), some "first") := by
  exact ⟨rfl, rfl, rfl, by decide⟩

/-- C3 (amended): with AllowOverride=false, a key already present in the
mapping makes any `RegisterContract` call that declares it fatal (the call
panics), and that second registration never takes effect: afterwards the
mapping still holds the previously registered handler. The `Register`
primitive, by contrast, inserts or overwrites unconditionally regardless of
AllowOverride. -/
theorem C3_strict_no_override {Ctx A : Type} (r : Registry Ctx A) (s : String)
    (iface : Contract) (impl : Impl Ctx A) (mName key : String) (h₀ : HandlerFunc Ctx A)
    (hov : r.config.AllowOverride = false) (hkey : key = s ++ "." ++ mName)
    (hm : mName ∈ iface.methods) (hmth : (impl.methodByName mName).isSome = true)
    (hfind : r.find key = some h₀) :
    (∃ msg r', RegisterContract r s iface impl = .panicked msg r') ∧
    ((RegisterContract r s iface impl).reg).find key = some h₀ := by
  subst hkey
  have hm' : mName ∈ ifaceMethodNames iface :=
    (List.perm_insertionSort goStrLeP iface.methods).mem_iff.mpr hm
  constructor
  · cases hpt : impl.isPointer with
    | false =>
      refine ⟨implNotPointerMsg, r, ?_⟩
      simp [RegisterContract, hpt]
    | true =>
      have := registerOps_panicked_of_dup s impl (ifaceMethodNames iface) r mName hov hm'
        hmth (by rw [hfind]; rfl)
      simpa [RegisterContract, hpt] using this
  · cases hpt : impl.isPointer with
    | false => simpa [RegisterContract, hpt, OpResult.reg] using hfind
    | true =>
      have := registerOps_find_of_present s impl (s ++ "." ++ mName) h₀
        (ifaceMethodNames iface) r hov hfind
      simpa [RegisterContract, hpt] using this

/-- Witness for C3 (amended): a registry holding "S.B", and a contract
declaring operations A, B, C against a full implementation: the call panics
and "S.B" still maps to the original handler. -/
theorem C3_strict_no_override_witness :
    (((NewRegistry Unit Nat DEFAULT_CONFIG).Register "S.B" hFirst).config.AllowOverride
        = false) ∧
    ("B" ∈ (⟨["A", "B", "C"]⟩ : Contract).methods) ∧
    (∃ msg r', RegisterContract ((NewRegistry Unit Nat DEFAULT_CONFIG).Register "S.B" hFirst)
        "S" ⟨["A", "B", "C"]⟩ implFull = .panicked msg r') ∧
    ((RegisterContract ((NewRegistry Unit Nat DEFAULT_CONFIG).Register "S.B" hFirst)
        "S" ⟨["A", "B", "C"]⟩ implFull).reg).find "S.B" = some hFirst := by
  have h := C3_strict_no_override
    ((NewRegistry Unit Nat DEFAULT_CONFIG).Register "S.B" hFirst)
    "S" ⟨["A", "B", "C"]⟩ implFull "B" "S.B" hFirst rfl rfl (by decide) rfl rfl
  exact ⟨rfl, by decide, h.1, h.2⟩

/-- Registering a list of fresh, pairwise-distinct operation names succeeds
(missing methods are permitted only under AllowPartial); afterwards every
processed name maps to the handler bound from its method (or stays unmapped
when the method is missing), other keys are untouched, and the configuration
is unchanged. -/
theorem registerOps_fresh_ok {Ctx A : Type} (s : String) (impl : Impl Ctx A) :
    ∀ (ops : List String) (r : Registry Ctx A), ops.Nodup →
      (∀ m ∈ ops, (impl.methodByName m).isSome = true ∨ r.config.AllowPartial = true) →
      (∀ m ∈ ops, r.find (s ++ "." ++ m) = none) →
      ∃ r', registerOps s impl r ops = .ok r' ∧
        (∀ m ∈ ops, r'.find (s ++ "." ++ m) = (impl.methodByName m).map makeHandler) ∧
        (∀ k, (∀ m ∈ ops, k ≠ s ++ "." ++ m) → r'.find k = r.find k) ∧
        r'.config = r.config
  | [], r, _, _, _ => ⟨r, rfl, by simp, fun _ _ => rfl, rfl⟩
  | x :: rest, r, hnd, hpm, hfresh => by
    have hndr : rest.Nodup := hnd.of_cons
    have hxrest : x ∉ rest := (List.nodup_cons.mp hnd).1
    simp only [registerOps]
    cases hx : impl.methodByName x with
    | none =>
      have hp : r.config.AllowPartial = true := by
        rcases hpm x (List.mem_cons_self ..) with h | h
        · rw [hx] at h; cases h
        · exact h
      rw [hp]
      simp only [if_true]
      obtain ⟨r', hok, hmapped, hframe, hcfg⟩ :=
        registerOps_fresh_ok s impl rest r hndr
          (fun m hm => hpm m (List.mem_cons_of_mem _ hm))
          (fun m hm => hfresh m (List.mem_cons_of_mem _ hm))
      refine ⟨r', hok, ?_, ?_, hcfg⟩
      · intro m hm
        rcases List.mem_cons.mp hm with rfl | hm'
        · rw [hx]
          have hne : ∀ m' ∈ rest, s ++ "." ++ m ≠ s ++ "." ++ m' := by
            intro m' hm' he
            exact hxrest (routingKey_inj he ▸ hm')
          rw [hframe _ hne]
          exact hfresh m (List.mem_cons_self ..)
        · exact hmapped m hm'
      · intro k hk
        exact hframe k (fun m hm => hk m (List.mem_cons_of_mem _ hm))
    | some mth =>
      have hfr : r.find (s ++ "." ++ x) = none := hfresh x (List.mem_cons_self ..)
      rw [hfr]
      simp only [Option.isSome_none, Bool.false_and, Bool.false_eq_true, if_false]
      obtain ⟨r', hok, hmapped, hframe, hcfg⟩ :=
        registerOps_fresh_ok s impl rest (r.Register (s ++ "." ++ x) (makeHandler mth)) hndr
          (fun m hm => by
            rcases hpm m (List.mem_cons_of_mem _ hm) with h | h
            · exact Or.inl h
            · exact Or.inr (by simpa using h))
          (fun m hm => by
            rw [find_Register, if_neg]
            · exact hfresh m (List.mem_cons_of_mem _ hm)
            · intro he
              exact hxrest (routingKey_inj he ▸ hm))
      refine ⟨r', hok, ?_, ?_, by simpa using hcfg⟩
      · intro m hm
        rcases List.mem_cons.mp hm with rfl | hm'
        · rw [hx]
          have hne : ∀ m' ∈ rest, s ++ "." ++ m ≠ s ++ "." ++ m' := by
            intro m' hm' he
            exact hxrest (routingKey_inj he ▸ hm')
          rw [hframe _ hne, find_Register, if_pos rfl]
          rfl
        · exact hmapped m hm'
      · intro k hk
        rw [hframe k (fun m hm => hk m (List.mem_cons_of_mem _ hm)), find_Register,
          if_neg (hk x (List.mem_cons_self ..))]

/-- C5: with AllowPartial=true, a contract operation whose method is missing
from the implementation is skipped entirely - its key stays unmapped and the
registration call returns normally (no panic) - while every operation whose
method exists is registered normally under its key. -/
theorem C5_partial_skip {Ctx A : Type} (r : Registry Ctx A) (s : String) (iface : Contract)
    (impl : Impl Ctx A) (hpt : impl.isPointer = true) (hpartialOk : r.config.AllowPartial = true)
    (hnd : iface.methods.Nodup) (hfresh : ∀ m ∈ iface.methods, r.find (s ++ "." ++ m) = none) :
    ∃ r', RegisterContract r s iface impl = .ok r' ∧
      (∀ m ∈ iface.methods, impl.methodByName m = none → r'.find (s ++ "." ++ m) = none) ∧
      (∀ m ∈ iface.methods, ∀ mth, impl.methodByName m = some mth →
          r'.find (s ++ "." ++ m) = some (makeHandler mth)) := by
  have hperm := List.perm_insertionSort goStrLeP iface.methods
  obtain ⟨r', hok, hmapped, _, _⟩ :=
    registerOps_fresh_ok s impl (ifaceMethodNames iface) r
      (hperm.nodup_iff.mpr hnd)
      (fun m _ => Or.inr hpartialOk)
      (fun m hm => hfresh m (hperm.mem_iff.mp hm))
  refine ⟨r', by simp [RegisterContract, hpt, hok], ?_, ?_⟩
  · intro m hm hnone
    have := hmapped m (hperm.mem_iff.mpr hm)
    rw [hnone] at this
    simpa using this
  · intro m hm mth hsome
    have := hmapped m (hperm.mem_iff.mpr hm)
    rw [hsome] at this
    simpa using this

/-- Witness for C5: contract declaring A and B, implementation exposing only
A, AllowPartial=true: registration succeeds, "S.A" is bound, "S.B" stays
unmapped. -/
theorem C5_partial_skip_witness :
    implOnlyA.isPointer = true ∧
    (NewRegistry Unit Nat ⟨false, true⟩).config.AllowPartial = true ∧
    (∃ r', RegisterContract (NewRegistry Unit Nat ⟨false, true⟩) "S" ⟨["A", "B"]⟩ implOnlyA
        = .ok r' ∧
      (∀ m ∈ (⟨["A", "B"]⟩ : Contract).methods, implOnlyA.methodByName m = none →
          r'.find ("S" ++ "." ++ m) = none) ∧
      (∀ m ∈ (⟨["A", "B"]⟩ : Contract).methods, ∀ mth, implOnlyA.methodByName m = some mth →
          r'.find ("S" ++ "." ++ m) = some (makeHandler mth))) := by
  refine ⟨rfl, rfl, ?_⟩
  exact C5_partial_skip (NewRegistry Unit Nat ⟨false, true⟩) "S" ⟨["A", "B"]⟩ implOnlyA
    rfl rfl (by decide) (fun m _ => rfl)

/-- Processing a list of operations that registers a fresh prefix and then
reaches an operation whose key is already mapped (under strict override
policy) panics with the `DuplicateKey` message naming exactly that key; the
prefix stays registered, and keys outside the prefix are untouched. -/
theorem registerOps_dup_abort {Ctx A : Type} (s : String) (impl : Impl Ctx A)
    (mName : String) (post : List String) :
    ∀ (pre : List String) (r : Registry Ctx A), r.config.AllowOverride = false →
      pre.Nodup →
      (∀ p ∈ pre, (impl.methodByName p).isSome = true) →
      (∀ p ∈ pre, r.find (s ++ "." ++ p) = none) →
      (impl.methodByName mName).isSome = true →
      (r.find (s ++ "." ++ mName)).isSome = true →
      ∃ r', registerOps s impl r (pre ++ mName :: post)
          = .panicked (duplicateKeyMsg (s ++ "." ++ mName)) r' ∧
        (∀ p ∈ pre, r'.find (s ++ "." ++ p) = (impl.methodByName p).map makeHandler) ∧
        (∀ k, (∀ p ∈ pre, k ≠ s ++ "." ++ p) → r'.find k = r.find k)
  | [], r, hov, _, _, _, hmth, hdup => by
    simp only [List.nil_append, registerOps]
    cases hm : impl.methodByName mName with
    | none => rw [hm] at hmth; cases hmth
    | some mth =>
      rw [hov]
      refine ⟨r, ?_, by simp, fun _ _ => rfl⟩
      simp [hdup]
  | p :: pre, r, hov, hnd, hpres, hfresh, hmth, hdup => by
    have hndr : pre.Nodup := hnd.of_cons
    have hprest : p ∉ pre := (List.nodup_cons.mp hnd).1
    cases hp : impl.methodByName p with
    | none =>
      have := hpres p (List.mem_cons_self ..)
      rw [hp] at this
      cases this
    | some mthP =>
      have hfp : r.find (s ++ "." ++ p) = none := hfresh p (List.mem_cons_self ..)
      obtain ⟨r', ha, hb, hc⟩ :=
        registerOps_dup_abort s impl mName post pre
          (r.Register (s ++ "." ++ p) (makeHandler mthP))
          (by simpa using hov) hndr
          (fun q hq => hpres q (List.mem_cons_of_mem _ hq))
          (fun q hq => by
            rw [find_Register, if_neg]
            · exact hfresh q (List.mem_cons_of_mem _ hq)
            · intro he
              exact hprest (routingKey_inj he ▸ hq))
          hmth
          (by
            rw [find_Register]
            by_cases hk : s ++ "." ++ mName = s ++ "." ++ p
            · rw [if_pos hk]; rfl
            · rw [if_neg hk]; exact hdup)
      refine ⟨r', ?_, ?_, ?_⟩
      · simp only [List.cons_append, registerOps, hp, hfp, Option.isSome_none,
          Bool.false_and, Bool.false_eq_true, if_false]
        exact ha
      · intro q hq
        rcases List.mem_cons.mp hq with rfl | hq'
        · have hne : ∀ p' ∈ pre, s ++ "." ++ q ≠ s ++ "." ++ p' := by
            intro p' hp' he
            exact hprest (routingKey_inj he ▸ hp')
          rw [hc _ hne, find_Register, if_pos rfl, hp]
          rfl
        · exact hb q hq'
      · intro k hk
        rw [hc k (fun q hq => hk q (List.mem_cons_of_mem _ hq)), find_Register,
          if_neg (hk p (List.mem_cons_self ..))]

/-- C6: under AllowOverride=false, a `RegisterContract` call that reaches an
operation whose routing key is already mapped panics with the `DuplicateKey`
message naming that key and aborts at exactly that point: the operations
processed earlier in the same call remain registered (no rollback), the
already-present handler is untouched, and no later operation is registered. -/
theorem C6_duplicate_aborts {Ctx A : Type} (r : Registry Ctx A) (s : String)
    (iface : Contract) (impl : Impl Ctx A) (pre post : List String) (mName : String)
    (h₀ : HandlerFunc Ctx A)
    (hov : r.config.AllowOverride = false) (hpt : impl.isPointer = true)
    (henum : ifaceMethodNames iface = pre ++ mName :: post)
    (hnd : (pre ++ mName :: post).Nodup)
    (hpres : ∀ p ∈ pre, (impl.methodByName p).isSome = true)
    (hfresh : ∀ p ∈ pre, r.find (s ++ "." ++ p) = none)
    (hmth : (impl.methodByName mName).isSome = true)
    (hdup : r.find (s ++ "." ++ mName) = some h₀) :
    ∃ r', RegisterContract r s iface impl
        = .panicked (duplicateKeyMsg (s ++ "." ++ mName)) r' ∧
      (∀ p ∈ pre, r'.find (s ++ "." ++ p) = (impl.methodByName p).map makeHandler) ∧
      r'.find (s ++ "." ++ mName) = some h₀ ∧
      (∀ q ∈ post, r'.find (s ++ "." ++ q) = r.find (s ++ "." ++ q)) := by
  obtain ⟨r', ha, hb, hc⟩ :=
    registerOps_dup_abort s impl mName post pre r hov
      ((List.nodup_append.mp hnd).1) hpres hfresh hmth (by rw [hdup]; rfl)
  have hdisj : pre.Disjoint (mName :: post) := (List.nodup_append.mp hnd).2.2
  refine ⟨r', ?_, hb, ?_, ?_⟩
  · rw [RegisterContract, if_pos hpt, henum]
    exact ha
  · have hne : ∀ p ∈ pre, s ++ "." ++ mName ≠ s ++ "." ++ p := by
      intro p hp he
      have : mName = p := routingKey_inj he
      exact hdisj (this ▸ hp) (List.mem_cons_self ..)
    rw [hc _ hne]
    exact hdup
  · intro q hq
    have hne : ∀ p ∈ pre, s ++ "." ++ q ≠ s ++ "." ++ p := by
      intro p hp he
      have : q = p := routingKey_inj he
      exact hdisj (this ▸ hp) (List.mem_cons_of_mem _ hq)
    exact hc _ hne

/-- Witness for C6: registry holding "S.B", contract declaring A, B, C (in
enumeration order A, B, C), full implementation: the call panics naming
"S.B", "S.A" got registered, "S.B" keeps its original handler, and "S.C"
stays unregistered. -/
theorem C6_duplicate_aborts_witness :
    (ifaceMethodNames ⟨["A", "B", "C"]⟩ = ["A"] ++ "B" :: ["C"]) ∧
    (∃ r', RegisterContract ((NewRegistry Unit Nat DEFAULT_CONFIG).Register "S.B" hFirst)
        "S" ⟨["A", "B", "C"]⟩ implFull = .panicked (duplicateKeyMsg ("S" ++ "." ++ "B")) r' ∧
      (∀ p ∈ ["A"], r'.find ("S" ++ "." ++ p) = (implFull.methodByName p).map makeHandler) ∧
      r'.find ("S" ++ "." ++ "B") = some hFirst ∧
      (∀ q ∈ ["C"], r'.find ("S" ++ "." ++ q)
          = ((NewRegistry Unit Nat DEFAULT_CONFIG).Register "S.B" hFirst).find ("S" ++ "." ++ q))) := by
  refine ⟨by decide, ?_⟩
  exact C6_duplicate_aborts ((NewRegistry Unit Nat DEFAULT_CONFIG).Register "S.B" hFirst)
    "S" ⟨["A", "B", "C"]⟩ implFull ["A"] ["C"] "B" hFirst rfl rfl (by decide) (by decide)
    (fun p hp => by
      have : p = "A" := by simpa using hp
      subst this
      rfl)
    (fun p hp => by
      have : p = "A" := by simpa using hp
      subst this
      rfl)
    rfl rfl

/-- The lexicographic order on character lists is antisymmetric. -/
theorem charListLe_antisymm : ∀ a b : List Char,
    charListLe a b = true → charListLe b a = true → a = b
  | [], [], _, _ => rfl
  | [], _ :: _, _, hba => by simp [charListLe] at hba
  | _ :: _, [], hab, _ => by simp [charListLe] at hab
  | x :: as, y :: bs, hab, hba => by
    simp only [charListLe] at hab hba
    by_cases h1 : x.toNat < y.toNat
    · have h2 : ¬ y.toNat < x.toNat := by omega
      simp [h1, h2] at hba
    · by_cases h2 : y.toNat < x.toNat
      · simp [h1, h2] at hab
      · have h3 : x.toNat = y.toNat := by omega
        have hxy : x = y := Char.eq_of_val_eq (UInt32.ext h3)
        subst hxy
        simp only [h1, h2, if_false] at hab hba
        rw [charListLe_antisymm as bs hab hba]

/-- The string order used for method enumeration is antisymmetric. -/
theorem goStrLeP_antisymm {a b : String} (hab : goStrLeP a b) (hba : goStrLeP b a) : a = b :=
  String.ext (charListLe_antisymm a.data b.data hab hba)

/-- On a name list sorted in lexicographic order, the validation loop panics
naming the key of the lexicographically least unsatisfied name. -/
theorem validateOps_first_missing {Ctx A : Type} (r : Registry Ctx A) (s mName : String) :
    ∀ L : List String, L.Sorted goStrLeP → mName ∈ L →
      r.find (s ++ "." ++ mName) = none →
      (∀ m' ∈ L, r.find (s ++ "." ++ m') = none → goStrLeP mName m') →
      validateOps r s L = .panic (missingHandlerMsg (s ++ "." ++ mName))
  | [], _, hmem, _, _ => absurd hmem (List.not_mem_nil _)
  | x :: L, hsorted, hmem, hnone, hmin => by
    simp only [validateOps]
    cases hfx : (r.find (s ++ "." ++ x)).isSome with
    | true =>
      have hxm : x ≠ mName := by
        intro h
        rw [h, hnone] at hfx
        cases hfx
      have hmem' : mName ∈ L := by
        rcases List.mem_cons.mp hmem with rfl | h
        · exact absurd rfl hxm
        · exact h
      simp only [if_true]
      exact validateOps_first_missing r s mName L hsorted.of_cons hmem' hnone
        (fun m' hm' => hmin m' (List.mem_cons_of_mem _ hm'))
    | false =>
      have hfx' : r.find (s ++ "." ++ x) = none :=
        Option.not_isSome_iff_eq_none.mp (by simp [hfx])
      have h1 : goStrLeP mName x := hmin x (List.mem_cons_self ..) hfx'
      have hx : x = mName := by
        rcases List.mem_cons.mp hmem with rfl | h
        · rfl
        · exact goStrLeP_antisymm (List.rel_of_sorted_cons hsorted mName h) h1
      simp only [Bool.false_eq_true, if_false, hx]
  termination_by L => L.length

/-- On a sorted list of fresh operation names, strict (AllowPartial=false)
registration panics with the `MissingMethod` message naming the
lexicographically least name whose method is absent. -/
theorem registerOps_first_missing_method {Ctx A : Type} (s : String) (impl : Impl Ctx A)
    (mName : String) :
    ∀ (L : List String) (r : Registry Ctx A), r.config.AllowPartial = false →
      L.Sorted goStrLeP → L.Nodup → mName ∈ L →
      impl.methodByName mName = none →
      (∀ m' ∈ L, impl.methodByName m' = none → goStrLeP mName m') →
      (∀ m' ∈ L, r.find (s ++ "." ++ m') = none) →
      ∃ r', registerOps s impl r L = .panicked (missingMethodMsg s mName) r'
  | [], _, _, _, _, hmem, _, _, _ => absurd hmem (List.not_mem_nil _)
  | x :: L, r, hpart, hsorted, hnd, hmem, hmiss, hmin, hfresh => by
    simp only [registerOps]
    cases hx : impl.methodByName x with
    | none =>
      have h1 : goStrLeP mName x := hmin x (List.mem_cons_self ..) hx
      have hxm : x = mName := by
        rcases List.mem_cons.mp hmem with rfl | h
        · rfl
        · exact goStrLeP_antisymm (List.rel_of_sorted_cons hsorted mName h) h1
      rw [hpart]
      subst hxm
      exact ⟨r, by simp⟩
    | some mth =>
      have hxm : x ≠ mName := by
        intro h
        rw [h, hmiss] at hx
        cases hx
      have hmem' : mName ∈ L := by
        rcases List.mem_cons.mp hmem with rfl | h
        · exact absurd rfl hxm
        · exact h
      have hfx : r.find (s ++ "." ++ x) = none := hfresh x (List.mem_cons_self ..)
      rw [hfx]
      simp only [Option.isSome_none, Bool.false_and, Bool.false_eq_true, if_false]
      exact registerOps_first_missing_method s impl mName L
        (r.Register (s ++ "." ++ x) (makeHandler mth)) (by simpa using hpart)
        hsorted.of_cons hnd.of_cons hmem' hmiss
        (fun m' hm' => hmin m' (List.mem_cons_of_mem _ hm'))
        (fun m' hm' => by
          rw [find_Register, if_neg]
          · exact hfresh m' (List.mem_cons_of_mem _ hm')
          · intro he
            exact (List.nodup_cons.mp hnd).1 (routingKey_inj he ▸ hm'))
  termination_by L => L.length

/-- C7 counterexample: for a contract declaring its operations in the order
B, A against an empty registry (both keys unsatisfied), `ValidateImpl` panics
naming "S.A" - the lexicographically first unsatisfied key - and not "S.B",
the first in declared order. -/
theorem C7_counterexample :
    ValidateImpl (NewRegistry Unit Nat DEFAULT_CONFIG) "S" ⟨["B", "A"]⟩
      = .panic (missingHandlerMsg "S.A") ∧
    missingHandlerMsg "S.A" ≠ missingHandlerMsg "S.B" := by
  exact ⟨rfl, by decide⟩

/-- C7 (amended): `RegisterContract` and `ValidateImpl` both enumerate a
contract's operations in the same order - the lexicographic order of the
operation names (Go reflect's interface method order), which coincides with
declared order only for alphabetically declared contracts. Consequently
`ValidateImpl` reports `MissingHandler` for the lexicographically least
unsatisfied name, and strict `RegisterContract` reports `MissingMethod` for
the lexicographically least absent method. -/
theorem C7_lexicographic_order {Ctx A : Type} (r : Registry Ctx A) (s : String)
    (iface : Contract) (impl : Impl Ctx A) :
    (∀ mName, mName ∈ iface.methods → r.find (s ++ "." ++ mName) = none →
      (∀ m' ∈ iface.methods, r.find (s ++ "." ++ m') = none → goStrLeP mName m') →
      ValidateImpl r s iface = .panic (missingHandlerMsg (s ++ "." ++ mName))) ∧
    (∀ mName, impl.isPointer = true → r.config.AllowPartial = false →
      iface.methods.Nodup → mName ∈ iface.methods → impl.methodByName mName = none →
      (∀ m' ∈ iface.methods, impl.methodByName m' = none → goStrLeP mName m') →
      (∀ m' ∈ iface.methods, r.find (s ++ "." ++ m') = none) →
      ∃ r', RegisterContract r s iface impl = .panicked (missingMethodMsg s mName) r') := by
  have hperm := List.perm_insertionSort goStrLeP iface.methods
  have hsorted : (ifaceMethodNames iface).Sorted goStrLeP :=
    List.sorted_insertionSort goStrLeP iface.methods
  constructor
  · intro mName hmem hnone hmin
    exact validateOps_first_missing r s mName (ifaceMethodNames iface) hsorted
      (hperm.mem_iff.mpr hmem) hnone
      (fun m' hm' => hmin m' (hperm.mem_iff.mp hm'))
  · intro mName hpt hpart hnd hmem hmiss hmin hfresh
    obtain ⟨r', h⟩ :=
      registerOps_first_missing_method s impl mName (ifaceMethodNames iface) r hpart
        hsorted (hperm.nodup_iff.mpr hnd) (hperm.mem_iff.mpr hmem) hmiss
        (fun m' hm' => hmin m' (hperm.mem_iff.mp hm'))
        (fun m' hm' => hfresh m' (hperm.mem_iff.mp hm'))
    exact ⟨r', by rw [RegisterContract, if_pos hpt]; exact h⟩

/-- Witness for C7 (amended): contract declaring B then A against an empty
registry; validation reports the lexicographically least unsatisfied key
"S.A". -/
theorem C7_lexicographic_order_witness :
    ("A" ∈ (⟨["B", "A"]⟩ : Contract).methods) ∧
    ValidateImpl (NewRegistry Unit Nat DEFAULT_CONFIG) "S" ⟨["B", "A"]⟩
      = .panic (missingHandlerMsg ("S" ++ "." ++ "A")) := by
  refine ⟨by decide, ?_⟩
  exact (C7_lexicographic_order (NewRegistry Unit Nat DEFAULT_CONFIG) "S" ⟨["B", "A"]⟩
      implFull).1 "A" (by decide) rfl
    (by
      intro m' hm' _
      have : m' = "B" ∨ m' = "A" := by simpa using hm'
      rcases this with rfl | rfl <;> decide)

/-- C8 counterexample: a contract whose only method has an incompatible shape
(three declared parameters) registers without any failure, and the subsequent
`Call` panics deep inside handler invocation - binding did not fail at
`RegisterContract` time. -/
theorem C8_counterexample :
    (∃ r', RegisterContract (NewRegistry Unit Nat DEFAULT_CONFIG) "S" ⟨["M"]⟩ implBadShape
        = .ok r') ∧
    ((RegisterContract (NewRegistry Unit Nat DEFAULT_CONFIG) "S" ⟨["M"]⟩ implBadShape).reg).Call
        (some ()) "S.M" (GoVal.val 0) = .panic reflectTooFewMsg := by
  exact ⟨⟨_, rfl⟩, rfl⟩

/-- C8 (amended): `RegisterContract` checks nothing about a method beyond its
existence by name: registration succeeds for any method shapes; a bound
method whose parameter count does not fit the capability signature makes
every invocation of the bound handler panic inside `reflect.Value.Call` at
`Call` time. -/
theorem C8_no_shape_validation {Ctx A : Type} (r : Registry Ctx A) (s : String)
    (iface : Contract) (impl : Impl Ctx A) (hpt : impl.isPointer = true)
    (hnd : iface.methods.Nodup)
    (hall : ∀ m ∈ iface.methods, (impl.methodByName m).isSome = true)
    (hfresh : ∀ m ∈ iface.methods, r.find (s ++ "." ++ m) = none) :
    (∃ r', RegisterContract r s iface impl = .ok r' ∧
      ∀ m ∈ iface.methods, r'.find (s ++ "." ++ m) = (impl.methodByName m).map makeHandler) ∧
    (∀ mth : GoMethod Ctx A, 2 < mth.numIn →
      ∀ (ctx : Option Ctx) (req : GoVal A), makeHandler mth ctx req = .panic reflectTooFewMsg) ∧
    (∀ mth : GoMethod Ctx A, mth.numIn = 0 →
      ∀ (ctx : Option Ctx) (req : GoVal A), makeHandler mth ctx req = .panic reflectTooManyMsg) := by
  refine ⟨?_, ?_, ?_⟩
  · have hperm := List.perm_insertionSort goStrLeP iface.methods
    obtain ⟨r', hok, hmapped, _, _⟩ :=
      registerOps_fresh_ok s impl (ifaceMethodNames iface) r
        (hperm.nodup_iff.mpr hnd)
        (fun m hm => Or.inl (hall m (hperm.mem_iff.mp hm)))
        (fun m hm => hfresh m (hperm.mem_iff.mp hm))
    exact ⟨r', by rw [RegisterContract, if_pos hpt]; exact hok,
      fun m hm => hmapped m (hperm.mem_iff.mpr hm)⟩
  · intro mth hgt ctx req
    have h2 : (mth.numIn == 2) = false := by
      simp only [beq_eq_false_iff_ne, ne_eq]
      omega
    simp [makeHandler, h2, show 1 < mth.numIn by omega]
  · intro mth h0 ctx req
    simp [makeHandler, h0]

/-- Witness for C8 (amended): the ill-shaped three-parameter method "M"
registers fine and its handler panics on every call. -/
theorem C8_no_shape_validation_witness :
    implBadShape.isPointer = true ∧ 2 < mThreeIn.numIn ∧
    (∃ r', RegisterContract (NewRegistry Unit Nat DEFAULT_CONFIG) "S" ⟨["M"]⟩ implBadShape
        = .ok r' ∧
      ∀ m ∈ (⟨["M"]⟩ : Contract).methods,
        r'.find ("S" ++ "." ++ m) = (implBadShape.methodByName m).map makeHandler) ∧
    makeHandler mThreeIn (some ()) (GoVal.val 0) = .panic reflectTooFewMsg := by
  have h := C8_no_shape_validation (NewRegistry Unit Nat DEFAULT_CONFIG) "S" ⟨["M"]⟩
    implBadShape rfl (by decide)
    (fun m hm => by
      have : m = "M" := by simpa using hm
      subst this
      rfl)
    (fun m _ => rfl)
  exact ⟨rfl, by decide, h.1, h.2.1 mThreeIn (by decide) (some ()) (GoVal.val 0)⟩

/-- C9 counterexample: the core's `HandlerNotFound` failure is a plain error
value carrying only a message, so a handler-returned error with the same text
yields a `Call` outcome identical, as a value, to the core's own failure: the
two kinds cannot be told apart. The first key is registered (its outcome is a
handler-returned error) while the second is not (its outcome is the core's
`HandlerNotFound`), yet the outcomes are equal. -/
theorem C9_counterexample :
    ((((NewRegistry Unit Nat DEFAULT_CONFIG).Register "k" hForge).find "k").isSome = true) ∧
    (((NewRegistry Unit Nat DEFAULT_CONFIG).Register "k" hForge).find "Exam.Missing" = none) ∧
    ((NewRegistry Unit Nat DEFAULT_CONFIG).Register "k" hForge).Call none "k" (GoVal.val 0)
      = ((NewRegistry Unit Nat DEFAULT_CONFIG).Register "k" hForge).Call none "Exam.Missing"
          (GoVal.val 0) := by
  exact ⟨rfl, rfl, rfl⟩

/-- Two character lists that disagree at an index inside both stay different
under arbitrary right extensions. -/
theorem ne_append_of_ne_at {a b : List Char} (i : Nat) (ha : i < a.length)
    (hb : i < b.length) (hne : a[i]? ≠ b[i]?) (x y : List Char) :
    a ++ x ≠ b ++ y := by
  intro h
  apply hne
  have h1 : (a ++ x)[i]? = a[i]? := List.getElem?_append_left ha
  have h2 : (b ++ y)[i]? = b[i]? := List.getElem?_append_left hb
  rw [← h1, ← h2, h]

/-- C9 (amended): the core's four failure outcomes are distinguishable from
each other only by their message text: the four message formats are pairwise
distinct for all key, service, and method names (their fixed prefixes
disagree). They carry no kind tag, and - as the counterexample shows - a
handler-returned error can be identical, as a value, to the core's
`HandlerNotFound`, so no distinction by kind is possible. -/
theorem C9_distinct_messages (k1 k2 s m : String) :
    handlerNotFoundMsg k1 ≠ missingMethodMsg s m ∧
    handlerNotFoundMsg k1 ≠ duplicateKeyMsg k2 ∧
    handlerNotFoundMsg k1 ≠ missingHandlerMsg k2 ∧
    missingMethodMsg s m ≠ duplicateKeyMsg k2 ∧
    missingMethodMsg s m ≠ missingHandlerMsg k2 ∧
    duplicateKeyMsg k1 ≠ missingHandlerMsg k2 := by
  refine ⟨?_, ?_, ?_, ?_, ?_, ?_⟩ <;>
    · intro heq
      have hd := congrArg String.data heq
      simp only [handlerNotFoundMsg, missingMethodMsg, duplicateKeyMsg, missingHandlerMsg,
        String.data_append, List.append_assoc] at hd
      first
      | exact ne_append_of_ne_at 6 (by decide) (by decide) (by decide) _ _ hd
      | exact ne_append_of_ne_at 14 (by decide) (by decide) (by decide) _ _ hd

/-- Witness for C9 (amended) at concrete names. -/
theorem C9_distinct_messages_witness :
    handlerNotFoundMsg "Exam.A" ≠ missingMethodMsg "Exam" "A" ∧
    handlerNotFoundMsg "Exam.A" ≠ duplicateKeyMsg "Exam.B" ∧
    handlerNotFoundMsg "Exam.A" ≠ missingHandlerMsg "Exam.B" ∧
    missingMethodMsg "Exam" "A" ≠ duplicateKeyMsg "Exam.B" ∧
    missingMethodMsg "Exam" "A" ≠ missingHandlerMsg "Exam.B" ∧
    duplicateKeyMsg "Exam.A" ≠ missingHandlerMsg "Exam.B" :=
  C9_distinct_messages "Exam.A" "Exam.B" "Exam" "A"

end Irpc
